import Mathlib

/-!
Verification of `outetts/version/v1/interface.py`.

The Python module orchestrates a text-to-speech pipeline.  We embed its
control flow shallowly: the neural backends (language model, audio codec,
whisper transcription, CTC forced alignment) are opaque function
parameters, while the module's own logic — validation, chunk assembly,
text splitting, speaker construction, queue-based playback sequencing —
is translated faithfully into executable Lean definitions.

Python exceptions are modelled with `Except PyError`; side-effect order
(which backend calls actually happen before a raise) is modelled with
explicit event traces.  `torch` tensors of token ids and of audio samples
are modelled as lists; the audio decoder `get_audio` appears as an opaque
`decode : List Nat → List Int` (token buffer to sample list).
-/

namespace OuteTTS

/-- Exceptions raised by the interface module (`ValueError`s from its
validation code, `ZeroDivisionError` from the average-segment-length
logging line, and an opaque constructor for exceptions raised by the
wrapped backends). -/
inductive PyError where
  | valueErrorMaxLengthNone
  | valueErrorMaxLengthExceeds (m maxSeq : Int)
  | valueErrorChunkSize
  | valueErrorTranscriptEmpty
  | zeroDivisionError
  | other (msg : String)
deriving DecidableEq, Repr

/-- Whether an `Except` value is an error (a raised exception). -/
def isError {ε α : Type} : Except ε α → Bool
  | Except.error _ => true
  | Except.ok _ => false

/-- `models/config.py`'s `GenerationConfig` record as built by the
interface: sampling temperature, repetition penalty, requested max
length and the pass-through `additional_gen_config` dict (opaque type
`Extra`). -/
structure GenerationConfig (Extra : Type) where
  temperature : ℚ
  repetition_penalty : ℚ
  max_length : Option Int
  additional_gen_config : Extra
deriving DecidableEq

/-- `playback.ModelOutput`: decoded audio samples plus the codec sample
rate. -/
structure ModelOutput (Wav : Type) where
  wav : Wav
  sr : Nat
deriving DecidableEq

/-- Observable steps of a `generate` call, used to state which backend
calls happen before an exception is raised. -/
inductive GenEvent where
  | preparedPrompt
  | checkedMaxLength
  | backendGenerate
  | decodedWav
deriving DecidableEq, Repr

/-- `InterfaceHF.check_generation_max_length` (interface.py lines
213-217): raise if `max_length` is `None`, raise if it exceeds
`config.max_seq_length`, otherwise return normally. -/
def check_generation_max_length (max_length : Option Int) (max_seq_length : Int) :
    Except PyError Unit :=
  match max_length with
  | Option.none => Except.error PyError.valueErrorMaxLengthNone
  | Option.some m =>
      if m > max_seq_length then
        Except.error (PyError.valueErrorMaxLengthExceeds m max_seq_length)
      else
        Except.ok ()

namespace InterfaceHF

/-- `InterfaceHF.generate` (interface.py lines 219-248).  `prepare` is
`prepare_prompt` (tokenised completion prompt), `backendGen` is
`HFModel.generate` (which returns the full sequence, prompt included, so
the interface drops the first `input_ids` tokens), `decode` is
`get_audio` composed with the codec.  Returns the result together with
the trace of backend steps performed. -/
def generate {Token Wav Extra Text Speaker : Type}
    (prepare : Text → Speaker → List Token)
    (backendGen : List Token → GenerationConfig Extra → List Token)
    (decode : List Token → Wav)
    (sr : Nat) (max_seq_length : Int)
    (text : Text) (speaker : Speaker)
    (temperature repetition_penalty : ℚ)
    (max_length : Option Int) (extra : Extra) :
    Except PyError (ModelOutput Wav) × List GenEvent :=
  let input_ids := prepare text speaker
  match check_generation_max_length max_length max_seq_length with
  | Except.error e => (Except.error e, [GenEvent.preparedPrompt])
  | Except.ok _ =>
      let output := backendGen input_ids
        ⟨temperature, repetition_penalty, max_length, extra⟩
      let wav := decode (output.drop input_ids.length)
      (Except.ok ⟨wav, sr⟩,
       [GenEvent.preparedPrompt, GenEvent.checkedMaxLength,
        GenEvent.backendGenerate, GenEvent.decodedWav])

end InterfaceHF

namespace InterfaceGGUF

/-- `InterfaceGGUF.generate` (interface.py lines 421-450): same pipeline
as the HF interface, but `GGUFModel.generate` returns only the newly
generated tokens, so `get_audio` is applied to the whole output. -/
def generate {Token Wav Extra Text Speaker : Type}
    (prepare : Text → Speaker → List Token)
    (backendGen : List Token → GenerationConfig Extra → List Token)
    (decode : List Token → Wav)
    (sr : Nat) (max_seq_length : Int)
    (text : Text) (speaker : Speaker)
    (temperature repetition_penalty : ℚ)
    (max_length : Option Int) (extra : Extra) :
    Except PyError (ModelOutput Wav) × List GenEvent :=
  let input_ids := prepare text speaker
  match check_generation_max_length max_length max_seq_length with
  | Except.error e => (Except.error e, [GenEvent.preparedPrompt])
  | Except.ok _ =>
      let output := backendGen input_ids
        ⟨temperature, repetition_penalty, max_length, extra⟩
      let wav := decode output
      (Except.ok ⟨wav, sr⟩,
       [GenEvent.preparedPrompt, GenEvent.checkedMaxLength,
        GenEvent.backendGenerate, GenEvent.decodedWav])

end InterfaceGGUF

namespace InterfaceEXL2

/-- `InterfaceEXL2.generate` (interface.py lines 479-510):
`prepare_prompt` returns the raw prompt string (type `Prompt`), and
`EXL2Model.generate` additionally receives
`additional_dynamic_generator_config` (type `Dyn`). -/
def generate {Token Wav Extra Dyn Prompt Text Speaker : Type}
    (prepare : Text → Speaker → Prompt)
    (backendGen : Prompt → GenerationConfig Extra → Dyn → List Token)
    (decode : List Token → Wav)
    (sr : Nat) (max_seq_length : Int)
    (text : Text) (speaker : Speaker)
    (temperature repetition_penalty : ℚ)
    (max_length : Option Int) (extra : Extra) (dyn : Dyn) :
    Except PyError (ModelOutput Wav) × List GenEvent :=
  let input_ids := prepare text speaker
  match check_generation_max_length max_length max_seq_length with
  | Except.error e => (Except.error e, [GenEvent.preparedPrompt])
  | Except.ok _ =>
      let output := backendGen input_ids
        ⟨temperature, repetition_penalty, max_length, extra⟩ dyn
      let wav := decode output
      (Except.ok ⟨wav, sr⟩,
       [GenEvent.preparedPrompt, GenEvent.checkedMaxLength,
        GenEvent.backendGenerate, GenEvent.decodedWav])

end InterfaceEXL2

namespace InterfaceHF

/-- Per-iteration state of the loop in `_generate_stream` (interface.py
lines 288-317): the ever-growing token buffer, the index of the first
audio sample not yet emitted, and the count of `code_end` tokens seen
since the last yield. -/
structure StreamState where
  buffer : List Nat
  start_index : Nat
  chunks : Nat
deriving DecidableEq, Repr

/-- `InterfaceHF._create_audio_chunk` (interface.py lines 258-262):
decode the whole buffer, slice off the samples already emitted, and
return the slice together with the full decoded length (the new
`start_index`).  The `ModelOutput` wrapper (which only adds the constant
sample rate) is elided. -/
def _create_audio_chunk (decode : List Nat → List Int) (tokens : List Nat) (idx : Nat) :
    List Int × Nat :=
  let wav := decode tokens
  (wav.drop idx, wav.length)

/-- One iteration of the token loop in `_generate_stream` (interface.py
lines 305-317): append the token to the buffer; with
`stream_segments=False`, count `code_end` tokens and yield a chunk when
the count reaches `chunk_size`. -/
def streamStep (decode : List Nat → List Int) (code_end_token chunk_size : Nat)
    (stream_segments : Bool) (st : StreamState) (token : Nat) :
    StreamState × List (List Int) :=
  let buffer := st.buffer ++ [token]
  if stream_segments then
    (⟨buffer, st.start_index, st.chunks⟩, [])
  else
    let chunks := if token = code_end_token then st.chunks + 1 else st.chunks
    if chunks = chunk_size then
      let p := _create_audio_chunk decode buffer st.start_index
      (⟨buffer, p.2, 0⟩, [p.1])
    else
      (⟨buffer, st.start_index, chunks⟩, [])

/-- The whole token loop of `_generate_stream`, collecting the yielded
chunks in order. -/
def streamRun (decode : List Nat → List Int) (code_end_token chunk_size : Nat)
    (stream_segments : Bool) : List Nat → StreamState → StreamState × List (List Int)
  | [], st => (st, [])
  | t :: ts, st =>
      let p := streamStep decode code_end_token chunk_size stream_segments st t
      let q := streamRun decode code_end_token chunk_size stream_segments ts p.1
      (q.1, p.2 ++ q.2)

/-- `InterfaceHF._generate_stream` (interface.py lines 264-322):
validate `chunk_size`, validate `max_length`, run the token loop over
the backend's generated token stream (`tokens`, opaque here), and flush
one final chunk when the buffer is non-empty.  Returns the list of
yielded chunks and the trace of backend steps performed. -/
def _generate_stream (decode : List Nat → List Int) (code_end_token : Nat)
    (max_seq_length : Int) (max_length : Option Int)
    (chunk_size : Nat) (stream_segments : Bool) (tokens : List Nat) :
    Except PyError (List (List Int)) × List GenEvent :=
  if chunk_size < 4 then (Except.error PyError.valueErrorChunkSize, [])
  else
    match check_generation_max_length max_length max_seq_length with
    | Except.error e => (Except.error e, [])
    | Except.ok _ =>
        let r := streamRun decode code_end_token chunk_size stream_segments tokens ⟨[], 0, 0⟩
        let ys :=
          if r.1.buffer = [] then r.2
          else r.2 ++ [(_create_audio_chunk decode r.1.buffer r.1.start_index).1]
        (Except.ok ys,
         [GenEvent.checkedMaxLength, GenEvent.preparedPrompt, GenEvent.backendGenerate])

end InterfaceHF

/-- Positions (as prefix lengths) of the mid-stream yields of
`_generate_stream` with `stream_segments=False`: a yield fires right
after token `i` exactly when that token is `code_end` and the number of
`code_end` tokens in the first `i+1` tokens is a (positive) multiple of
`chunk_size`. -/
def cutPoints (code_end_token chunk_size : Nat) (tokens : List Nat) : List Nat :=
  (List.range tokens.length).filterMap fun i =>
    if tokens.get? i = Option.some code_end_token ∧
        ((tokens.take (i + 1)).count code_end_token) % chunk_size = 0 then
      Option.some (i + 1)
    else
      Option.none

/-- The chunk contents determined by a list of cut points: the chunk cut
at prefix length `c` holds the decoded audio of the first `c` tokens
minus the samples already emitted (the decoded length at the previous
cut). -/
def chunksAt (decode : List Nat → List Int) (tokens : List Nat) :
    List Nat → Nat → List (List Int)
  | [], _ => []
  | c :: cs, s =>
      (decode (tokens.take c)).drop s ::
        chunksAt decode tokens cs (decode (tokens.take c)).length

/-- The emitted-sample index after processing a list of cut points. -/
def chunksAtEnd (decode : List Nat → List Int) (tokens : List Nat) :
    List Nat → Nat → Nat
  | [], s => s
  | c :: cs, _ => chunksAtEnd decode tokens cs (decode (tokens.take c)).length

/-- Python's `round` on a rational value (round half to even, the mode
used by `round(float)`), as used by `create_speaker` for frame indices
and durations.  Floats are modelled by rationals. -/
def roundHalfEven (q : ℚ) : ℤ :=
  let f := ⌊q⌋
  let r := q - (f : ℚ)
  if r < 1 / 2 then f
  else if 1 / 2 < r then f + 1
  else if f % 2 = 0 then f else f + 1

/-- Python's `round(q, 2)`: round to two decimal places, half to even. -/
def round2 (q : ℚ) : ℚ := (roundHalfEven (q * 100) : ℚ) / 100

/-- One force-aligned word as returned by `CTCForcedAlignment.align`:
the word string and its end position `x1` in audio samples.  (The
per-word audio tensor, used only to rebuild the concatenated recording
that is then encoded, is abstracted away: the encoded `full_codes`
list is a separate parameter of `create_speaker`.) -/
structure AlignedWord where
  word : String
  x1 : Nat
deriving DecidableEq, Repr

/-- One entry of the `"words"` list built by `create_speaker`. -/
structure SpeakerWord where
  word : String
  duration : ℚ
  codes : List Int
deriving DecidableEq, Repr

/-- The speaker dict returned by `create_speaker` (interface.py lines
158-162). -/
structure Speaker where
  text : String
  words : List SpeakerWord
  language : String
deriving DecidableEq, Repr

/-- Observable backend steps of a `create_speaker` call. -/
inductive SpeakerEvent where
  | transcribed
  | aligned
  | encoded
deriving DecidableEq, Repr

/-- The loop body of `create_speaker`'s word loop (interface.py lines
144-156): the accumulator is `(start, data)`; the word's frame range is
`start` to `end = int(round((x1 / sample_rate) * 75))`, its codes are
that slice of `full_codes[0][0]` — replaced by `[1]` when the slice is
empty — and its duration is `round(len(word_tokens) / 75, 2)`. -/
def speakerStep (fullCodes : List Int) (sampleRate : Nat)
    (acc : Nat × List SpeakerWord) (w : AlignedWord) : Nat × List SpeakerWord :=
  let e := (roundHalfEven (((w.x1 : ℚ) / (sampleRate : ℚ)) * 75)).toNat
  let word_tokens := (fullCodes.take e).drop acc.1
  let word_tokens := if word_tokens = [] then [1] else word_tokens
  (e, acc.2 ++ [⟨w.word, round2 ((word_tokens.length : ℚ) / 75), word_tokens⟩])

/-- `InterfaceHF.create_speaker` (interface.py lines 113-162).  Backend
results are parameters: `whisperTranscript` is what
`transcribe.transcribe_once` would return (used only when `transcript`
is `None`), `alignWords` is the forced-alignment result, `fullCodes` is
`full_codes[0][0]` from the audio codec.  Returns the speaker dict (or
the raised error) together with the trace of backend steps performed. -/
def create_speaker (whisperTranscript : String) (alignWords : List AlignedWord)
    (sampleRate : Nat) (fullCodes : List Int) (language : String)
    (transcript : Option String) :
    Except PyError Speaker × List SpeakerEvent :=
  let tr := match transcript with
    | Option.none => whisperTranscript
    | Option.some t => t
  let evs := match transcript with
    | Option.none => [SpeakerEvent.transcribed]
    | Option.some _ => []
  if tr = "" then (Except.error PyError.valueErrorTranscriptEmpty, evs)
  else
    let evs := evs ++ [SpeakerEvent.aligned, SpeakerEvent.encoded]
    let r := alignWords.foldl (speakerStep fullCodes sampleRate) (0, [])
    (Except.ok ⟨tr, r.2, language⟩, evs)

/-- The `"words"` list as the spec describes it, word by word: one entry
per force-aligned word, carrying the word string, its codes slice of the
full code sequence (`[1]` when the slice is empty), and duration
`round(len(codes) / 75, 2)`. -/
def specWords (fullCodes : List Int) (sampleRate : Nat) :
    Nat → List AlignedWord → List SpeakerWord
  | _, [] => []
  | start, w :: ws =>
      let e := (roundHalfEven (((w.x1 : ℚ) / (sampleRate : ℚ)) * 75)).toNat
      let slice := (fullCodes.take e).drop start
      let codes := if slice = [] then [1] else slice
      ⟨w.word, round2 ((codes.length : ℚ) / 75), codes⟩ ::
        specWords fullCodes sampleRate e ws

/-- The characters occurring in `split_text`'s default delimiter list
(interface.py lines 335-340).  Every character of every delimiter is
itself a single-character delimiter, so this is both the alphabet of the
delimiters and the set of characters removed by the split. -/
def delimChar (c : Char) : Bool :=
  c = '.' || c = '?' || c = '!' || c = ';' || c = ':' || c = '\n' || c = '\r' ||
    c = '\t' || c = '。' || c = '？' || c = '！' || c = '…'

/-- `re.split` over the escaped alternation of the default delimiters
(interface.py lines 341-342).  The regex scans left to right trying the
alternatives in list order at each position; the only overlap is that
`'\r\n'` is listed before `'\r'`, so a `'\r'` immediately followed by
`'\n'` consumes both characters as one delimiter.  Like `re.split`,
empty pieces between adjacent delimiters are kept. -/
def reSplit : List Char → List (List Char)
  | [] => [[]]
  | '\r' :: '\n' :: rest => [] :: reSplit rest
  | c :: rest =>
      if delimChar c then [] :: reSplit rest
      else
        match reSplit rest with
        | [] => [[c]]
        | p :: ps => (c :: p) :: ps

/-- The whitespace predicate of Python's `str.strip()` (modelled over
the common ASCII whitespace characters). -/
def pyWhitespace (c : Char) : Bool :=
  c = ' ' || c = '\t' || c = '\n' || c = '\r' || c = '\x0b' || c = '\x0c'

/-- Python's `sentence.strip()`: remove leading and trailing whitespace. -/
def pyStrip (s : List Char) : List Char :=
  List.rdropWhile pyWhitespace (List.dropWhile pyWhitespace s)

/-- `InterfaceHF.split_text` with the default delimiters (interface.py
lines 333-345): regex-split the text, strip every piece, and drop the
empty ones. -/
def split_text (text : List Char) : List (List Char) :=
  ((reSplit text).map pyStrip).filter fun s => !s.isEmpty

/-- `Splits pieces t`: `t` consists exactly of `pieces` in order,
interleaved with non-empty delimiter matches.  This is the shape of a
`re.split` result. -/
inductive Splits : List (List Char) → List Char → Prop where
  | single (p : List Char) : Splits [p] p
  | cons (p d : List Char) (l : List (List Char)) (t : List Char) :
      d ≠ [] → Splits l t → Splits (p :: l) (p ++ d ++ t)

/-- `InOrder l t`: the strings of `l` occur in `t` as disjoint
substrings, in the order listed. -/
inductive InOrder : List (List Char) → List Char → Prop where
  | nil (t : List Char) : InOrder [] t
  | cons (s front post : List Char) (l : List (List Char)) :
      InOrder l post → InOrder (s :: l) (front ++ s ++ post)

mutual
/-- Python values that can appear in a speaker dict handed to
`save_speaker` (interface.py lines 164-166): `None`, booleans, ints,
finite floats (modelled by rationals), strings, lists and dicts.
Dict keys are arbitrary values, as in Python. -/
inductive PyVal where
  | pynone
  | pybool (b : Bool)
  | pyint (n : Int)
  | pyfloat (q : ℚ)
  | pystr (s : String)
  | pylist (l : PyList)
  | pydict (d : PyDict)

/-- A Python list of `PyVal`s. -/
inductive PyList where
  | nil
  | cons (v : PyVal) (tl : PyList)

/-- A Python dict as an association list of `PyVal` pairs. -/
inductive PyDict where
  | nil
  | cons (k : PyVal) (v : PyVal) (tl : PyDict)
end

mutual
/-- JSON values as written to the file: the textual form distinguishes
ints (no decimal point) from floats, and object keys are strings. -/
inductive JVal where
  | jnull
  | jbool (b : Bool)
  | jint (n : Int)
  | jfloat (q : ℚ)
  | jstr (s : String)
  | jarr (l : JList)
  | jobj (o : JObj)

/-- A JSON array. -/
inductive JList where
  | nil
  | cons (v : JVal) (tl : JList)

/-- A JSON object. -/
inductive JObj where
  | nil
  | cons (k : String) (v : JVal) (tl : JObj)
end

/-- Modelled from the documented behavior of Python's `json.dump`
(the `json` module is a library, not part of this repository): a
non-string dict key that is an int, float, bool or `None` is coerced to
a string; other non-string keys make serialization fail (`TypeError`
with the default `skipkeys=False`). -/
def dumpKey : PyVal → Option String
  | PyVal.pystr s => Option.some s
  | PyVal.pyint n => Option.some (toString n)
  | PyVal.pyfloat q => Option.some (toString q)
  | PyVal.pybool b => Option.some (if b then "true" else "false")
  | PyVal.pynone => Option.some "null"
  | PyVal.pylist _ => Option.none
  | PyVal.pydict _ => Option.none

mutual
/-- Modelled from the documented behavior of Python's `json.dump`
(`save_speaker`, interface.py lines 164-166, writes `json.dump(speaker,
f, indent=2)`): serialization to the JSON text, modelled as the JSON
tree; ints keep integral form, finite floats round-trip exactly via
`repr`, dict keys are coerced by `dumpKey`.  The file itself is assumed
to store the text faithfully. -/
def dumpVal : PyVal → Option JVal
  | PyVal.pynone => Option.some JVal.jnull
  | PyVal.pybool b => Option.some (JVal.jbool b)
  | PyVal.pyint n => Option.some (JVal.jint n)
  | PyVal.pyfloat q => Option.some (JVal.jfloat q)
  | PyVal.pystr s => Option.some (JVal.jstr s)
  | PyVal.pylist l => (dumpList l).map JVal.jarr
  | PyVal.pydict d => (dumpDict d).map JVal.jobj

/-- Serialize the elements of a Python list. -/
def dumpList : PyList → Option JList
  | PyList.nil => Option.some JList.nil
  | PyList.cons v tl =>
      match dumpVal v, dumpList tl with
      | Option.some j, Option.some js => Option.some (JList.cons j js)
      | _, _ => Option.none

/-- Serialize the entries of a Python dict. -/
def dumpDict : PyDict → Option JObj
  | PyDict.nil => Option.some JObj.nil
  | PyDict.cons k v tl =>
      match dumpKey k, dumpVal v, dumpDict tl with
      | Option.some ks, Option.some j, Option.some js =>
          Option.some (JObj.cons ks j js)
      | _, _, _ => Option.none
end

mutual
/-- Modelled from the documented behavior of Python's `json.load`
(`load_speaker`, interface.py lines 168-170): parse the JSON text back
into Python values; object keys come back as strings. -/
def loadVal : JVal → PyVal
  | JVal.jnull => PyVal.pynone
  | JVal.jbool b => PyVal.pybool b
  | JVal.jint n => PyVal.pyint n
  | JVal.jfloat q => PyVal.pyfloat q
  | JVal.jstr s => PyVal.pystr s
  | JVal.jarr l => PyVal.pylist (loadList l)
  | JVal.jobj o => PyVal.pydict (loadObj o)

/-- Parse a JSON array. -/
def loadList : JList → PyList
  | JList.nil => PyList.nil
  | JList.cons v tl => PyList.cons (loadVal v) (loadList tl)

/-- Parse a JSON object. -/
def loadObj : JObj → PyDict
  | JObj.nil => PyDict.nil
  | JObj.cons k v tl => PyDict.cons (PyVal.pystr k) (loadVal v) (loadObj tl)
end

mutual
/-- All dict keys of the value, at every nesting level, are strings
(true for every dict built by `create_speaker`). -/
def strKeysVal : PyVal → Bool
  | PyVal.pynone => true
  | PyVal.pybool _ => true
  | PyVal.pyint _ => true
  | PyVal.pyfloat _ => true
  | PyVal.pystr _ => true
  | PyVal.pylist l => strKeysList l
  | PyVal.pydict d => strKeysDict d

/-- `strKeysVal` over a list. -/
def strKeysList : PyList → Bool
  | PyList.nil => true
  | PyList.cons v tl => strKeysVal v && strKeysList tl

/-- `strKeysVal` over a dict. -/
def strKeysDict : PyDict → Bool
  | PyDict.nil => true
  | PyDict.cons k v tl =>
      (match k with
        | PyVal.pystr _ => true
        | _ => false) && strKeysVal v && strKeysDict tl
end

/-- `save_speaker` followed by `load_speaker` (interface.py lines
164-170), with the file assumed faithful: serialize the speaker value to
JSON and parse it back.  `Option.none` means `json.dump` raised. -/
def load_after_save (sp : PyVal) : Option PyVal := (dumpVal sp).map loadVal

/-- Observable events of a `generate_stream` call (interface.py lines
347-390): starting the playback thread, enqueueing an audio chunk,
enqueueing the `None` sentinel, logging a caught exception, and joining
the playback thread. -/
inductive StreamEvent (Chunk : Type) where
  | startThread
  | putChunk (c : Chunk)
  | putNone
  | logError
  | joinThread
deriving DecidableEq, Repr

/-- The `try` block of `generate_stream` (interface.py lines 370-386):
for each segment, enqueue every chunk the streaming generator yields;
the first exception aborts the loop and is logged.  `segGen s` models
the per-segment generation: the chunks yielded before returning or
before raising, paired with the exception if one is raised.  Returns the
queue events and whether an exception was caught. -/
def runSegments {Chunk : Type} (segGen : List Char → List Chunk × Option PyError) :
    List (List Char) → List (StreamEvent Chunk) × Bool
  | [] => ([], false)
  | s :: rest =>
      let r := segGen s
      match r.2 with
      | Option.some _ => (r.1.map StreamEvent.putChunk, true)
      | Option.none =>
          let q := runSegments segGen rest
          (r.1.map StreamEvent.putChunk ++ q.1, q.2)

/-- `InterfaceHF.generate_stream` (interface.py lines 347-390): create
the queue, start the playback thread, split the text; the
average-segment-length logging line divides by `len(segments)` and
raises `ZeroDivisionError` when the split is empty — this happens after
the thread start and before the `try` block, so in that case no sentinel
is enqueued and the thread is never joined.  Otherwise run the segment
loop guarded by `try`/`except` (exceptions logged), always enqueue the
`None` sentinel, and join the thread. -/
def generate_stream {Chunk : Type} (segGen : List Char → List Chunk × Option PyError)
    (text : List Char) : Except PyError Unit × List (StreamEvent Chunk) :=
  let segments := split_text text
  if segments.length = 0 then
    (Except.error PyError.zeroDivisionError, [StreamEvent.startThread])
  else
    let r := runSegments segGen segments
    (Except.ok (),
     StreamEvent.startThread ::
       (r.1 ++ (if r.2 then [StreamEvent.logError] else []) ++
         [StreamEvent.putNone, StreamEvent.joinThread]))

/-- `InterfaceHF._audio_player` (interface.py lines 324-331): the
consumer loop — take items off the queue in FIFO order, play each chunk,
stop at the first `None` sentinel.  The input is the sequence of items
the producer enqueued, in order; the output is the sequence of chunks
played, in order. -/
def _audio_player {Chunk : Type} : List (Option Chunk) → List Chunk
  | [] => []
  | Option.none :: _ => []
  | Option.some c :: rest => c :: _audio_player rest

/-- The FIFO queue contents of a `generate_stream` run: the `put` calls
in program order (`some chunk` for audio chunks, `none` for the
sentinel). -/
def queueItems {Chunk : Type} : List (StreamEvent Chunk) → List (Option Chunk)
  | [] => []
  | StreamEvent.putChunk c :: rest => Option.some c :: queueItems rest
  | StreamEvent.putNone :: rest => Option.none :: queueItems rest
  | StreamEvent.startThread :: rest => queueItems rest
  | StreamEvent.logError :: rest => queueItems rest
  | StreamEvent.joinThread :: rest => queueItems rest

/-- The audio chunks enqueued during a `generate_stream` run, in
program order. -/
def chunksPut {Chunk : Type} : List (StreamEvent Chunk) → List Chunk
  | [] => []
  | StreamEvent.putChunk c :: rest => c :: chunksPut rest
  | StreamEvent.putNone :: rest => chunksPut rest
  | StreamEvent.startThread :: rest => chunksPut rest
  | StreamEvent.logError :: rest => chunksPut rest
  | StreamEvent.joinThread :: rest => chunksPut rest

/-- Modelled from the spec's words («thin adapters normalizing three
backend APIs to one interface»): the common generate pipeline — build
the completion prompt, validate `max_length`, run the backend with a
`GenerationConfig` carrying exactly the call's parameters, extract the
audio tokens from the backend output, decode them, and return
`ModelOutput(audio, sr)`.  The three interfaces are compared against
this single pipeline, each instantiating only the backend adapter. -/
def backendPipeline {Token Wav Extra Text Speaker P : Type}
    (prepare : Text → Speaker → P)
    (backendGen : P → GenerationConfig Extra → List Token)
    (extract : P → List Token → List Token)
    (decode : List Token → Wav)
    (sr : Nat) (max_seq_length : Int)
    (text : Text) (speaker : Speaker)
    (temperature repetition_penalty : ℚ)
    (max_length : Option Int) (extra : Extra) :
    Except PyError (ModelOutput Wav) × List GenEvent :=
  let p := prepare text speaker
  match check_generation_max_length max_length max_seq_length with
  | Except.error e => (Except.error e, [GenEvent.preparedPrompt])
  | Except.ok _ =>
      let output := backendGen p
        ⟨temperature, repetition_penalty, max_length, extra⟩
      let wav := decode (extract p output)
      (Except.ok ⟨wav, sr⟩,
       [GenEvent.preparedPrompt, GenEvent.checkedMaxLength,
        GenEvent.backendGenerate, GenEvent.decodedWav])

/-! ## Helper lemmas -/

@[simp] theorem isError_error {ε α : Type} (e : ε) :
    isError (Except.error e : Except ε α) = true := rfl

@[simp] theorem isError_ok {ε α : Type} (a : α) :
    isError (Except.ok a : Except ε α) = false := rfl

theorem streamRun_append (d : List Nat → List Int) (ce cs : Nat) (ss : Bool)
    (xs ys : List Nat) (st : InterfaceHF.StreamState) :
    InterfaceHF.streamRun d ce cs ss (xs ++ ys) st =
      ((InterfaceHF.streamRun d ce cs ss ys (InterfaceHF.streamRun d ce cs ss xs st).1).1,
       (InterfaceHF.streamRun d ce cs ss xs st).2 ++
         (InterfaceHF.streamRun d ce cs ss ys (InterfaceHF.streamRun d ce cs ss xs st).1).2) := by
  induction xs generalizing st with
  | nil => simp [InterfaceHF.streamRun]
  | cons t ts ih => simp [InterfaceHF.streamRun, ih]

theorem cutPoints_nil (ce cs : Nat) : cutPoints ce cs [] = [] := rfl

theorem cutPoints_concat (ce cs : Nat) (ts : List Nat) (a : Nat) :
    cutPoints ce cs (ts ++ [a]) =
      cutPoints ce cs ts ++
        (if a = ce ∧ (ts.count ce + 1) % cs = 0 then [ts.length + 1] else []) := by
  unfold cutPoints
  have hlen : (ts ++ [a]).length = ts.length + 1 := by simp
  rw [hlen, List.range_succ, List.filterMap_append]
  congr 1
  · apply List.filterMap_congr
    intro i hi
    rw [ List.mem_range] at hi
    rw [ List.get?_append hi, List.take_append_of_le_length (by omega)]
  · have hget : (ts ++ [a]).get? ts.length = Option.some a := List.get?_concat_length ts a
    have htake : (ts ++ [a]).take (ts.length + 1) = ts ++ [a] := by
      rw [← hlen, List.take_length]
    have hcount : (ts ++ [a]).count ce = ts.count ce + (if a = ce then 1 else 0) := by
      rw [ List.count_append]
      by_cases hac : a = ce
      · subst hac; simp
      · simp [List.count_singleton', Ne.symm hac, hac]
    simp only [List.filterMap, hget, htake, hcount]
    by_cases hac : a = ce
    · by_cases hz : (ts.count ce + 1) % cs = 0 <;> simp [hac, hz]
    · simp [hac]

theorem cutPoints_le (ce cs : Nat) (ts : List Nat) :
    ∀ c ∈ cutPoints ce cs ts, c ≤ ts.length := by
  intro c hc
  unfold cutPoints at hc
  rw [ List.mem_filterMap] at hc
  obtain ⟨i, hi, hf⟩ := hc
  rw [ List.mem_range] at hi
  split at hf
  · injection hf with h; omega
  · cases hf

theorem chunksAt_congr_concat (d : List Nat → List Int) (ts : List Nat) (a : Nat)
    (cuts : List Nat) (h : ∀ c ∈ cuts, c ≤ ts.length) (s : Nat) :
    chunksAt d (ts ++ [a]) cuts s = chunksAt d ts cuts s := by
  induction cuts generalizing s with
  | nil => rfl
  | cons c cs ih =>
      have hc := h c (by simp)
      rw [chunksAt, chunksAt, List.take_append_of_le_length hc]
      rw [ih (fun x hx => h x (by simp [hx]))]

theorem chunksAtEnd_congr_concat (d : List Nat → List Int) (ts : List Nat) (a : Nat)
    (cuts : List Nat) (h : ∀ c ∈ cuts, c ≤ ts.length) (s : Nat) :
    chunksAtEnd d (ts ++ [a]) cuts s = chunksAtEnd d ts cuts s := by
  induction cuts generalizing s with
  | nil => rfl
  | cons c cs ih =>
      have hc := h c (by simp)
      rw [chunksAtEnd, chunksAtEnd, List.take_append_of_le_length hc]
      rw [ih (fun x hx => h x (by simp [hx]))]

theorem chunksAt_append (d : List Nat → List Int) (t : List Nat)
    (cuts cuts' : List Nat) (s : Nat) :
    chunksAt d t (cuts ++ cuts') s =
      chunksAt d t cuts s ++ chunksAt d t cuts' (chunksAtEnd d t cuts s) := by
  induction cuts generalizing s with
  | nil => rfl
  | cons c cs ih => simp [chunksAt, chunksAtEnd, ih]

theorem chunksAtEnd_append (d : List Nat → List Int) (t : List Nat)
    (cuts cuts' : List Nat) (s : Nat) :
    chunksAtEnd d t (cuts ++ cuts') s =
      chunksAtEnd d t cuts' (chunksAtEnd d t cuts s) := by
  induction cuts generalizing s with
  | nil => rfl
  | cons c cs ih => simp [chunksAtEnd, ih]

theorem mod_succ_eq_zero_iff (n cs : Nat) (h2 : 2 ≤ cs) :
    (n + 1) % cs = 0 ↔ n % cs + 1 = cs := by
  have hkey : (n % cs + 1) % cs = (n + 1) % cs := Nat.mod_add_mod n cs 1
  have hlt : n % cs < cs := Nat.mod_lt _ (by omega)
  constructor
  · intro hz
    rcases Nat.lt_or_ge (n % cs + 1) cs with hlt' | hge
    · rw [← hkey, Nat.mod_eq_of_lt hlt'] at hz; omega
    · omega
  · intro hEq
    rw [← hkey, hEq, Nat.mod_self]

theorem streamRun_spec (d : List Nat → List Int) (ce cs : Nat) (h2 : 2 ≤ cs)
    (tokens : List Nat) :
    InterfaceHF.streamRun d ce cs false tokens ⟨[], 0, 0⟩ =
      (⟨tokens, chunksAtEnd d tokens (cutPoints ce cs tokens) 0, tokens.count ce % cs⟩,
       chunksAt d tokens (cutPoints ce cs tokens) 0) := by
  induction tokens using List.reverseRecOn with
  | nil => simp [InterfaceHF.streamRun, cutPoints, chunksAt, chunksAtEnd]
  | append_singleton ts a ih =>
      rw [streamRun_append, ih]
      have hle := cutPoints_le ce cs ts
      have hC : ts.count ce % cs < cs := Nat.mod_lt _ (by omega)
      rw [cutPoints_concat]
      by_cases hac : a = ce
      · subst hac
        by_cases hz : (ts.count a + 1) % cs = 0
        · have hCs : ts.count a % cs + 1 = cs := (mod_succ_eq_zero_iff _ _ h2).mp hz
          have hcount : (ts ++ [a]).count a = ts.count a + 1 := by
            simp [List.count_append]
          simp only [hz, and_self, if_true]
          rw [chunksAt_append, chunksAtEnd_append,
            chunksAt_congr_concat d ts a _ hle, chunksAtEnd_congr_concat d ts a _ hle]
          have htake : (ts ++ [a]).take (ts.length + 1) = ts ++ [a] := by
            have hL : (ts ++ [a]).length = ts.length + 1 := by simp
            rw [← hL, List.take_length]
          simp only [InterfaceHF.streamRun, InterfaceHF.streamStep,
            InterfaceHF._create_audio_chunk, Bool.false_eq_true, if_false, if_pos rfl,
            ite_true, hcount]
          rw [if_pos hCs]
          simp [chunksAt, chunksAtEnd, htake, hz]
        · have hCs : ¬ (ts.count a % cs + 1 = cs) := fun hEq =>
            hz ((mod_succ_eq_zero_iff _ _ h2).mpr hEq)
          have hcount : (ts ++ [a]).count a = ts.count a + 1 := by
            simp [List.count_append]
          have hmod : (ts.count a + 1) % cs = ts.count a % cs + 1 := by
            rw [← Nat.mod_add_mod]
            exact Nat.mod_eq_of_lt (by omega)
          simp only [hz, and_false, if_false, List.append_nil]
          rw [chunksAt_congr_concat d ts a _ hle, chunksAtEnd_congr_concat d ts a _ hle]
          simp only [InterfaceHF.streamRun, InterfaceHF.streamStep,
            Bool.false_eq_true, if_false, if_pos rfl, ite_true, hcount, hmod]
          rw [if_neg hCs]
          simp
      · have hcount : (ts ++ [a]).count ce = ts.count ce := by
          simp [List.count_append, List.count_singleton', Ne.symm hac]
        have hCs : ¬ (ts.count ce % cs = cs) := by omega
        simp only [hac, false_and, if_false, List.append_nil]
        rw [chunksAt_congr_concat d ts a _ hle, chunksAtEnd_congr_concat d ts a _ hle]
        simp only [InterfaceHF.streamRun, InterfaceHF.streamStep,
          Bool.false_eq_true, if_false, if_neg hac, if_neg hCs, hcount]
        simp

/-! ## Claim theorems -/

/-- Claim C1: for every interface (`InterfaceHF`, `InterfaceGGUF`,
`InterfaceEXL2`) and every call to `generate` or the streaming
generator, `check_generation_max_length` raises `ValueError` if and only
if `max_length` is `None` or `max_length > config.max_seq_length`; in
particular `max_length = max_seq_length` is accepted; and when the
`ValueError` is raised no backend model generation is performed (no
`backendGenerate` event appears in the call's trace). -/
theorem claim_C1_max_length_validation :
    (∀ (max_length : Option Int) (max_seq_length : Int),
        isError (check_generation_max_length max_length max_seq_length) = true ↔
          max_length = Option.none ∨
            ∃ m, max_length = Option.some m ∧ max_seq_length < m)
    ∧ (∀ max_seq_length : Int,
        check_generation_max_length (Option.some max_seq_length) max_seq_length =
          Except.ok ())
    ∧ (∀ (Token Wav Extra Text Speaker : Type)
        (prepare : Text → Speaker → List Token)
        (backendGen : List Token → GenerationConfig Extra → List Token)
        (decode : List Token → Wav) (sr : Nat) (maxSeq : Int)
        (text : Text) (speaker : Speaker) (temp rp : ℚ)
        (ml : Option Int) (extra : Extra),
        isError (InterfaceHF.generate prepare backendGen decode sr maxSeq
            text speaker temp rp ml extra).1 =
          isError (check_generation_max_length ml maxSeq)
        ∧ (isError (check_generation_max_length ml maxSeq) = true →
            GenEvent.backendGenerate ∉
              (InterfaceHF.generate prepare backendGen decode sr maxSeq
                text speaker temp rp ml extra).2))
    ∧ (∀ (Token Wav Extra Text Speaker : Type)
        (prepare : Text → Speaker → List Token)
        (backendGen : List Token → GenerationConfig Extra → List Token)
        (decode : List Token → Wav) (sr : Nat) (maxSeq : Int)
        (text : Text) (speaker : Speaker) (temp rp : ℚ)
        (ml : Option Int) (extra : Extra),
        isError (InterfaceGGUF.generate prepare backendGen decode sr maxSeq
            text speaker temp rp ml extra).1 =
          isError (check_generation_max_length ml maxSeq)
        ∧ (isError (check_generation_max_length ml maxSeq) = true →
            GenEvent.backendGenerate ∉
              (InterfaceGGUF.generate prepare backendGen decode sr maxSeq
                text speaker temp rp ml extra).2))
    ∧ (∀ (Token Wav Extra Dyn Prompt Text Speaker : Type)
        (prepare : Text → Speaker → Prompt)
        (backendGen : Prompt → GenerationConfig Extra → Dyn → List Token)
        (decode : List Token → Wav) (sr : Nat) (maxSeq : Int)
        (text : Text) (speaker : Speaker) (temp rp : ℚ)
        (ml : Option Int) (extra : Extra) (dyn : Dyn),
        isError (InterfaceEXL2.generate prepare backendGen decode sr maxSeq
            text speaker temp rp ml extra dyn).1 =
          isError (check_generation_max_length ml maxSeq)
        ∧ (isError (check_generation_max_length ml maxSeq) = true →
            GenEvent.backendGenerate ∉
              (InterfaceEXL2.generate prepare backendGen decode sr maxSeq
                text speaker temp rp ml extra dyn).2))
    ∧ (∀ (d : List Nat → List Int) (ce : Nat) (maxSeq : Int) (ml : Option Int)
        (chunk_size : Nat) (ss : Bool) (tokens : List Nat), 4 ≤ chunk_size →
        isError (InterfaceHF._generate_stream d ce maxSeq ml chunk_size ss tokens).1 =
          isError (check_generation_max_length ml maxSeq)
        ∧ (isError (check_generation_max_length ml maxSeq) = true →
            GenEvent.backendGenerate ∉
              (InterfaceHF._generate_stream d ce maxSeq ml chunk_size ss tokens).2)) := by
  refine ⟨?_, ?_, ?_, ?_, ?_, ?_⟩
  · intro ml ms
    cases ml with
    | none => simp [check_generation_max_length]
    | some m =>
        by_cases h : m > ms
        · simp [check_generation_max_length, h]
        · simp [check_generation_max_length, h]
  · intro ms
    simp [check_generation_max_length]
  · intro Token Wav Extra Text Speaker prepare backendGen decode sr maxSeq
      text speaker temp rp ml extra
    unfold InterfaceHF.generate
    cases hE : check_generation_max_length ml maxSeq with
    | error e => simp [hE]
    | ok u => simp [hE]
  · intro Token Wav Extra Text Speaker prepare backendGen decode sr maxSeq
      text speaker temp rp ml extra
    unfold InterfaceGGUF.generate
    cases hE : check_generation_max_length ml maxSeq with
    | error e => simp [hE]
    | ok u => simp [hE]
  · intro Token Wav Extra Dyn Prompt Text Speaker prepare backendGen decode sr maxSeq
      text speaker temp rp ml extra dyn
    unfold InterfaceEXL2.generate
    cases hE : check_generation_max_length ml maxSeq with
    | error e => simp [hE]
    | ok u => simp [hE]
  · intro d ce maxSeq ml chunk_size ss tokens h4
    unfold InterfaceHF._generate_stream
    rw [if_neg (by omega)]
    cases hE : check_generation_max_length ml maxSeq with
    | error e => simp [hE]
    | ok u => simp [hE]

/-- Claim C2: in `_generate_stream` with `stream_segments=False`, a
`ValueError` is raised if `chunk_size < 4`; otherwise a chunk is
yielded exactly each time `chunk_size` occurrences of the `code_end`
token have accumulated since the previous yield (the cut points
`cutPoints`, prefix positions whose cumulative `code_end` count is a
positive multiple of `chunk_size`), plus one final chunk for the
non-empty buffered token list, and each yielded chunk carries only the
decoded samples past the previous cut's decoded length (the
`start_index` slice), as computed by `chunksAt`. -/
theorem claim_C2_stream_chunk_assembly
    (d : List Nat → List Int) (ce : Nat) (maxSeq : Int) (maxLen : Option Int)
    (chunk_size : Nat) (tokens : List Nat)
    (h4 : 4 ≤ chunk_size)
    (hml : check_generation_max_length maxLen maxSeq = Except.ok ()) :
    (∀ cs' : Nat, cs' < 4 →
        (InterfaceHF._generate_stream d ce maxSeq maxLen cs' false tokens).1 =
          Except.error PyError.valueErrorChunkSize)
    ∧ (InterfaceHF._generate_stream d ce maxSeq maxLen chunk_size false tokens).1 =
        Except.ok (chunksAt d tokens
          (cutPoints ce chunk_size tokens ++
            if tokens = [] then [] else [tokens.length]) 0) := by
  constructor
  · intro cs' h
    simp [InterfaceHF._generate_stream, h]
  · have h2 : 2 ≤ chunk_size := by omega
    unfold InterfaceHF._generate_stream
    rw [if_neg (by omega), hml]
    rw [streamRun_spec d ce chunk_size h2 tokens]
    by_cases ht : tokens = []
    · subst ht
      simp [cutPoints, chunksAt]
    · rw [if_neg ht]
      simp only [ht, if_false]
      rw [chunksAt_append]
      simp [chunksAt, InterfaceHF._create_audio_chunk, List.take_length]

/-- Claim C3: the three runtimes are interchangeable behind one
interface: each of `InterfaceHF.generate`, `InterfaceGGUF.generate` and
`InterfaceEXL2.generate` equals the common `backendPipeline` — build the
completion prompt, validate `max_length`, call the backend with a
`GenerationConfig` carrying exactly the call's parameters, decode the
extracted audio tokens, and return `ModelOutput(audio, sr)` — each
instantiating only its backend adapter (HF drops the echoed prompt
tokens from the backend output; EXL2's adapter closes over
`additional_dynamic_generator_config`). -/
theorem claim_C3_backend_interchangeability :
    (∀ (Token Wav Extra Text Speaker : Type)
        (prepare : Text → Speaker → List Token)
        (backendGen : List Token → GenerationConfig Extra → List Token)
        (decode : List Token → Wav) (sr : Nat) (maxSeq : Int)
        (text : Text) (speaker : Speaker) (temp rp : ℚ)
        (ml : Option Int) (extra : Extra),
        InterfaceHF.generate prepare backendGen decode sr maxSeq
            text speaker temp rp ml extra =
          backendPipeline prepare backendGen (fun p out => out.drop p.length)
            decode sr maxSeq text speaker temp rp ml extra)
    ∧ (∀ (Token Wav Extra Text Speaker : Type)
        (prepare : Text → Speaker → List Token)
        (backendGen : List Token → GenerationConfig Extra → List Token)
        (decode : List Token → Wav) (sr : Nat) (maxSeq : Int)
        (text : Text) (speaker : Speaker) (temp rp : ℚ)
        (ml : Option Int) (extra : Extra),
        InterfaceGGUF.generate prepare backendGen decode sr maxSeq
            text speaker temp rp ml extra =
          backendPipeline prepare backendGen (fun _ out => out)
            decode sr maxSeq text speaker temp rp ml extra)
    ∧ (∀ (Token Wav Extra Dyn Prompt Text Speaker : Type)
        (prepare : Text → Speaker → Prompt)
        (backendGen : Prompt → GenerationConfig Extra → Dyn → List Token)
        (decode : List Token → Wav) (sr : Nat) (maxSeq : Int)
        (text : Text) (speaker : Speaker) (temp rp : ℚ)
        (ml : Option Int) (extra : Extra) (dyn : Dyn),
        InterfaceEXL2.generate prepare backendGen decode sr maxSeq
            text speaker temp rp ml extra dyn =
          backendPipeline prepare (fun p cfg => backendGen p cfg dyn) (fun _ out => out)
            decode sr maxSeq text speaker temp rp ml extra) := by
  refine ⟨?_, ?_, ?_⟩ <;> · intros; rfl

set_option maxHeartbeats 1600000 in
theorem reSplit_cons_delim (c : Char) (rest : List Char)
    (hctr : ∀ r', c = '\r' → rest = '\n' :: r' → False) (hd : delimChar c = true) :
    reSplit (c :: rest) = [] :: reSplit rest := by
  rw [reSplit.eq_3 c rest hctr, if_pos hd]

set_option maxHeartbeats 1600000 in
theorem reSplit_cons_other (c : Char) (rest : List Char)
    (hctr : ∀ r', c = '\r' → rest = '\n' :: r' → False) (hd : delimChar c = false) :
    reSplit (c :: rest) =
      match reSplit rest with
      | [] => [[c]]
      | p :: ps => (c :: p) :: ps := by
  rw [reSplit.eq_3 c rest hctr]
  rw [if_neg (by simp [hd])]

theorem reSplit_ne_nil (t : List Char) : reSplit t ≠ [] := by
  induction t using reSplit.induct with
  | case1 => rw [reSplit.eq_1]; simp
  | case2 rest ih => rw [reSplit.eq_2]; simp
  | case3 c rest hctr hd ih => rw [reSplit_cons_delim c rest hctr hd]; simp
  | case4 c rest hctr hd hnil ih => exact absurd hnil ih
  | case5 c rest hctr hd p ps heq ih =>
      rw [reSplit_cons_other c rest hctr (by simpa using hd), heq]
      simp

theorem Splits_cons_inv (p : List Char) (ps : List (List Char)) (rest : List Char)
    (h : Splits (p :: ps) rest) :
    (ps = [] ∧ rest = p) ∨ ∃ d u, d ≠ [] ∧ Splits ps u ∧ rest = p ++ d ++ u := by
  cases h with
  | single => exact Or.inl ⟨rfl, rfl⟩
  | cons _ d l u hdne hs => exact Or.inr ⟨d, u, hdne, hs, rfl⟩

theorem splits_reSplit (t : List Char) : Splits (reSplit t) t := by
  induction t using reSplit.induct with
  | case1 => rw [reSplit.eq_1]; exact Splits.single []
  | case2 rest ih =>
      rw [reSplit.eq_2]
      simpa using Splits.cons [] ['\r', '\n'] (reSplit rest) rest (by simp) ih
  | case3 c rest hctr hd ih =>
      rw [reSplit_cons_delim c rest hctr hd]
      simpa using Splits.cons [] [c] (reSplit rest) rest (by simp) ih
  | case4 c rest hctr hd hnil ih => exact absurd hnil (reSplit_ne_nil rest)
  | case5 c rest hctr hd p ps heq ih =>
      rw [reSplit_cons_other c rest hctr (by simpa using hd), heq]
      rw [heq] at ih
      show Splits ((c :: p) :: ps) (c :: rest)
      rcases Splits_cons_inv p ps rest ih with ⟨hps, hrest⟩ | ⟨d, u, hdne, hs, hrest⟩
      · subst hps
        rw [hrest]
        exact Splits.single (c :: p)
      · subst hrest
        have := Splits.cons (c :: p) d ps u hdne hs
        simpa using this

theorem InOrder_shift (l : List (List Char)) (t x : List Char) (h : InOrder l t) :
    InOrder l (x ++ t) := by
  cases h with
  | nil => exact InOrder.nil _
  | cons s front post l' h' =>
      have := InOrder.cons s (x ++ front) post l' h'
      simpa using this

theorem InOrder_of_Splits (l : List (List Char)) (t : List Char) (h : Splits l t) :
    InOrder l t := by
  induction h with
  | single p => simpa using InOrder.cons p [] [] [] (InOrder.nil [])
  | cons p d l u hdne hs ih =>
      have := InOrder.cons p [] (d ++ u) l (InOrder_shift l u d ih)
      simpa [List.append_assoc] using this

theorem InOrder_map (f : List Char → List Char)
    (hf : ∀ s, ∃ a b, s = a ++ f s ++ b) (l : List (List Char)) (t : List Char)
    (h : InOrder l t) : InOrder (l.map f) t := by
  induction h with
  | nil t => exact InOrder.nil t
  | cons s front post l' h' ih =>
      obtain ⟨a, b, hs⟩ := hf s
      rw [ List.map_cons]
      generalize hq : f s = q at hs ⊢
      subst hs
      have := InOrder.cons q (front ++ a) (b ++ post) (l'.map f)
        (InOrder_shift (l'.map f) post b ih)
      simpa [List.append_assoc] using this

theorem InOrder_filter_bool (q : List Char → Bool) (l : List (List Char)) (t : List Char)
    (h : InOrder l t) : InOrder (l.filter q) t := by
  induction h with
  | nil t => exact InOrder.nil t
  | cons s front post l' h' ih =>
      rw [ List.filter_cons]
      by_cases hq : q s
      · rw [if_pos (by simpa using hq)]
        exact InOrder.cons s front post _ ih
      · rw [if_neg (by simpa using hq)]
        have := InOrder_shift (l'.filter q) post (front ++ s) ih
        simpa [List.append_assoc] using this

theorem reSplit_no_delim (t : List Char) :
    ∀ p ∈ reSplit t, ∀ c ∈ p, delimChar c = false := by
  induction t using reSplit.induct with
  | case1 =>
      intro p hp c hc
      rw [reSplit.eq_1] at hp
      simp at hp
      subst hp
      simp at hc
  | case2 rest ih =>
      intro p hp x hx
      rw [reSplit.eq_2] at hp
      rcases List.mem_cons.mp hp with h1 | h1
      · subst h1; simp at hx
      · exact ih p h1 x hx
  | case3 c rest hctr hd ih =>
      intro p hp x hx
      rw [reSplit_cons_delim c rest hctr hd] at hp
      rcases List.mem_cons.mp hp with h1 | h1
      · subst h1; simp at hx
      · exact ih p h1 x hx
  | case4 c rest hctr hd hnil ih => exact absurd hnil (reSplit_ne_nil rest)
  | case5 c rest hctr hd p ps heq ih =>
      intro pp hpp x hx
      have hre : reSplit (c :: rest) = (c :: p) :: ps := by
        rw [reSplit_cons_other c rest hctr (by simpa using hd), heq]
      rw [hre] at hpp
      rcases List.mem_cons.mp hpp with h1 | h1
      · subst h1
        rcases List.mem_cons.mp hx with h2 | h2
        · subst h2; simpa using hd
        · exact ih p (heq ▸ List.mem_cons_self p ps) x h2
      · exact ih pp (heq ▸ List.mem_cons_of_mem p h1) x hx

theorem pyStrip_subset (s : List Char) : ∀ c ∈ pyStrip s, c ∈ s := by
  intro c hc
  unfold pyStrip at hc
  have h1 := (List.rdropWhile_prefix pyWhitespace
    (List.dropWhile pyWhitespace s)).subset hc
  exact (List.dropWhile_suffix pyWhitespace).subset h1

theorem pyStrip_decomp (s : List Char) : ∃ a b, s = a ++ pyStrip s ++ b := by
  obtain ⟨b, hb⟩ := List.rdropWhile_prefix pyWhitespace (List.dropWhile pyWhitespace s)
  refine ⟨List.takeWhile pyWhitespace s, b, ?_⟩
  rw [ List.append_assoc]
  unfold pyStrip
  rw [hb, List.takeWhile_append_dropWhile]

theorem dropWhile_pyStrip (s : List Char) :
    List.dropWhile pyWhitespace (pyStrip s) = pyStrip s := by
  unfold pyStrip
  obtain ⟨t, ht⟩ := List.rdropWhile_prefix pyWhitespace (List.dropWhile pyWhitespace s)
  rcases hB : List.rdropWhile pyWhitespace (List.dropWhile pyWhitespace s)
    with _ | ⟨b, bs⟩
  · simp
  · rw [hB] at ht
    have hA : List.dropWhile pyWhitespace s = b :: (bs ++ t) := by
      rw [← ht]; rfl
    have hid : List.dropWhile pyWhitespace (b :: (bs ++ t)) = b :: (bs ++ t) := by
      rw [← hA]
      exact List.dropWhile_idempotent pyWhitespace s
    rw [ List.dropWhile_cons] at hid
    by_cases hw : pyWhitespace b
    · rw [if_pos hw] at hid
      have hlen := congrArg List.length hid
      have hsuf : List.dropWhile pyWhitespace (bs ++ t) <:+ bs ++ t :=
        List.dropWhile_suffix pyWhitespace
      have hle := hsuf.length_le
      simp only [List.length_cons, List.length_append] at hlen hle
      omega
    · rw [ List.dropWhile_cons, if_neg hw]

theorem pyStrip_idem (s : List Char) : pyStrip (pyStrip s) = pyStrip s := by
  have h1 : pyStrip (pyStrip s) =
      List.rdropWhile pyWhitespace (List.dropWhile pyWhitespace (pyStrip s)) := rfl
  rw [h1, dropWhile_pyStrip]
  unfold pyStrip
  exact List.rdropWhile_idempotent pyWhitespace _

theorem foldl_speakerStep_eq (fullCodes : List Int) (sr : Nat)
    (ws : List AlignedWord) : ∀ (start : Nat) (acc : List SpeakerWord),
    (ws.foldl (speakerStep fullCodes sr) (start, acc)).2 =
      acc ++ specWords fullCodes sr start ws := by
  induction ws with
  | nil => intro start acc; simp [specWords]
  | cons w ws ih =>
      intro start acc
      rw [ List.foldl_cons, specWords]
      show (ws.foldl (speakerStep fullCodes sr)
        (speakerStep fullCodes sr (start, acc) w)).2 = _
      rw [speakerStep]
      rw [ih]
      simp

theorem specWords_length (fullCodes : List Int) (sr : Nat) :
    ∀ (start : Nat) (ws : List AlignedWord),
    (specWords fullCodes sr start ws).length = ws.length := by
  intro start ws
  induction ws generalizing start with
  | nil => rfl
  | cons w ws ih => rw [specWords]; simp [ih]

/-- Claim C5: `create_speaker` raises `ValueError("Transcript text is
empty")` if and only if the effective transcript — the one passed in,
or the whisper transcription when `transcript` is `None` — is empty,
and when it raises, no forced alignment and no audio encoding is
performed (no `aligned`/`encoded` event in the trace). -/
theorem claim_C5_empty_transcript (wt : String) (aws : List AlignedWord) (sr : Nat)
    (fc : List Int) (lang : String) (tr : Option String) :
    ((create_speaker wt aws sr fc lang tr).1 =
        Except.error PyError.valueErrorTranscriptEmpty ↔ tr.getD wt = "")
    ∧ (tr.getD wt = "" →
        SpeakerEvent.aligned ∉ (create_speaker wt aws sr fc lang tr).2
        ∧ SpeakerEvent.encoded ∉ (create_speaker wt aws sr fc lang tr).2) := by
  cases tr with
  | none => by_cases h : wt = "" <;> simp [create_speaker, h, Option.getD]
  | some t => by_cases h : t = "" <;> simp [create_speaker, h, Option.getD]

/-- Claim C4 (counterexample to the claim as stated): with sample rate 1,
codec codes `[5, 6]` and one aligned word `"hi"` ending at sample 0, the
word's codes slice is empty, but the entry's `codes` field is `[1]`, not
the slice — `create_speaker` substitutes `[1]` for an empty slice. -/
theorem claim_C4_counterexample :
    ((create_speaker "x" [⟨"hi", 0⟩] 1 [5, 6] "en" (Option.some "hi")).1.map
        fun sp => sp.words.map fun w => w.codes) = Except.ok [[1]]
    ∧ (([5, 6] : List Int).take
        (roundHalfEven ((((⟨"hi", 0⟩ : AlignedWord).x1 : ℚ) / (1 : ℚ)) * 75)).toNat).drop 0
        = []
    ∧ ([1] : List Int) ≠ [] := by
  refine ⟨?_, ?_, by simp⟩
  · simp only [create_speaker, List.foldl, speakerStep]
    norm_num [roundHalfEven]
    rw [if_neg (by decide : ¬ ("hi" : String) = "")]
    rfl
  · norm_num [roundHalfEven]

/-- Claim C4 (amended): for every audio and transcript, `create_speaker`
returns a speaker dict whose `"text"` field is the effective transcript
(the provided one, or the whisper transcription when `transcript` is
`None`), whose `"language"` field is the interface's current language,
and whose `"words"` list has exactly one entry per force-aligned word,
each entry carrying that word's string, its audio-codec codes slice —
with an empty slice replaced by `[1]` — and duration equal to
`round(len(codes) / 75, 2)` (the `specWords` description). -/
theorem claim_C4_create_speaker (wt : String) (aws : List AlignedWord) (sr : Nat)
    (fc : List Int) (lang : String) (tr : Option String)
    (h : tr.getD wt ≠ "") :
    (create_speaker wt aws sr fc lang tr).1 =
      Except.ok ⟨tr.getD wt, specWords fc sr 0 aws, lang⟩
    ∧ (specWords fc sr 0 aws).length = aws.length := by
  refine ⟨?_, specWords_length fc sr 0 aws⟩
  cases tr with
  | none =>
      simp only [Option.getD] at h ⊢
      simp only [create_speaker, if_neg h]
      rw [foldl_speakerStep_eq]
      simp
  | some t =>
      simp only [Option.getD] at h ⊢
      simp only [create_speaker, if_neg h]
      rw [foldl_speakerStep_eq]
      simp

/-- Claim C8: every string returned by `split_text` (with the default
delimiters) is non-empty, equals its own strip, and contains none of the
delimiter characters; and the returned strings occur in the input text
as disjoint substrings in order (`InOrder`). -/
theorem claim_C8_split_text (t : List Char) :
    (∀ s ∈ split_text t, s ≠ [] ∧ pyStrip s = s ∧ ∀ c ∈ s, delimChar c = false)
    ∧ InOrder (split_text t) t := by
  constructor
  · intro s hs
    unfold split_text at hs
    obtain ⟨hmem, hne⟩ := List.mem_filter.mp hs
    obtain ⟨p, hp, hps⟩ := List.mem_map.mp hmem
    subst hps
    refine ⟨by simpa using hne, pyStrip_idem p, ?_⟩
    intro c hc
    exact reSplit_no_delim t p hp c (pyStrip_subset p c hc)
  · unfold split_text
    exact InOrder_filter_bool _ _ t (InOrder_map pyStrip pyStrip_decomp _ t
      (InOrder_of_Splits _ t (splits_reSplit t)))

theorem queueItems_start {Chunk : Type} (evs : List (StreamEvent Chunk)) :
    queueItems (StreamEvent.startThread :: evs) = queueItems evs := rfl

theorem chunksPut_start {Chunk : Type} (evs : List (StreamEvent Chunk)) :
    chunksPut (StreamEvent.startThread :: evs) = chunksPut evs := rfl

theorem getLast?_trace {α : Type} (x a b : α) (l : List α) :
    (x :: (l ++ [a, b])).getLast? = Option.some b := by
  have h1 : x :: (l ++ [a, b]) = (x :: (l ++ [a])) ++ [b] := by simp
  rw [h1, List.getLast?_concat]

theorem getLast?_trace3 {α : Type} (x a b c : α) (l : List α) :
    (x :: (l ++ [a, b, c])).getLast? = Option.some c := by
  have h1 : x :: (l ++ [a, b, c]) = (x :: (l ++ [a, b])) ++ [c] := by simp
  rw [h1, List.getLast?_concat]

theorem runSegments_shape {Chunk : Type} (segGen : List Char → List Chunk × Option PyError)
    (segs : List (List Char)) :
    ∃ cs : List Chunk, (runSegments segGen segs).1 = cs.map StreamEvent.putChunk := by
  induction segs with
  | nil => exact ⟨[], rfl⟩
  | cons s rest ih =>
      obtain ⟨cs, hcs⟩ := ih
      simp only [runSegments]
      cases hE : (segGen s).2 with
      | some e => exact ⟨(segGen s).1, by simp [hE]⟩
      | none => exact ⟨(segGen s).1 ++ cs, by simp [hE, hcs]⟩

theorem queueItems_puts {Chunk : Type} (cs : List Chunk) (evs : List (StreamEvent Chunk)) :
    queueItems (cs.map StreamEvent.putChunk ++ evs) = cs.map Option.some ++ queueItems evs := by
  induction cs with
  | nil => rfl
  | cons c cs ih => simp [queueItems, ih]

theorem chunksPut_puts {Chunk : Type} (cs : List Chunk) (evs : List (StreamEvent Chunk)) :
    chunksPut (cs.map StreamEvent.putChunk ++ evs) = cs ++ chunksPut evs := by
  induction cs with
  | nil => rfl
  | cons c cs ih => simp [chunksPut, ih]

theorem player_stops {Chunk : Type} (played : List Chunk) (rest : List (Option Chunk)) :
    _audio_player (played.map Option.some ++ Option.none :: rest) = played := by
  induction played with
  | nil => rfl
  | cons c cs ih => simp [_audio_player, ih]

theorem runSegments_flag {Chunk : Type} (segGen : List Char → List Chunk × Option PyError)
    (segs : List (List Char)) :
    (runSegments segGen segs).2 = true ↔ ∃ s ∈ segs, ((segGen s).2).isSome := by
  induction segs with
  | nil => simp [runSegments]
  | cons s rest ih =>
      simp only [runSegments]
      cases hE : (segGen s).2 with
      | some e =>
          simp only [hE]
          constructor
          · intro _
            exact ⟨s, List.mem_cons_self s rest, by rw [hE]; rfl⟩
          · intro _
            trivial
      | none =>
          simp only [hE]
          rw [ih]
          constructor
          · rintro ⟨x, hx, hsome⟩
            exact ⟨x, List.mem_cons_of_mem s hx, hsome⟩
          · rintro ⟨x, hx, hsome⟩
            rcases List.mem_cons.mp hx with h1 | h1
            · subst h1
              rw [hE] at hsome
              cases hsome
            · exact ⟨x, h1, hsome⟩

/-- Claim C7: `generate_stream` is a single-producer/single-consumer
pattern over a blocking queue — the calling thread enqueues the audio
chunks and the sentinel (one `startThread`, the puts, one `putNone`);
the consumer (`_audio_player`) plays exactly the enqueued chunks in
FIFO order; the sentinel is the last item enqueued and the consumer
stops at the first `None` sentinel and plays no chunk after it (last
conjunct, for every queue content); and the producer joins the consumer
thread as its final action before returning. -/
theorem claim_C7_producer_consumer {Chunk : Type}
    (segGen : List Char → List Chunk × Option PyError) (text : List Char)
    (h : split_text text ≠ []) :
    _audio_player (queueItems (generate_stream segGen text).2) =
        chunksPut (generate_stream segGen text).2
    ∧ queueItems (generate_stream segGen text).2 =
        (chunksPut (generate_stream segGen text).2).map Option.some ++ [Option.none]
    ∧ (generate_stream segGen text).2.getLast? = Option.some StreamEvent.joinThread
    ∧ (∀ (played : List Chunk) (rest : List (Option Chunk)),
        _audio_player (played.map Option.some ++ Option.none :: rest) = played) := by
  have hlen : ¬ (split_text text).length = 0 := by
    simpa [List.length_eq_zero] using h
  obtain ⟨cs, hcs⟩ := runSegments_shape segGen (split_text text)
  simp only [generate_stream, if_neg hlen]
  have hq : queueItems
      (StreamEvent.startThread ::
        ((runSegments segGen (split_text text)).1 ++
          (if (runSegments segGen (split_text text)).2 then [StreamEvent.logError]
            else []) ++
          [StreamEvent.putNone, StreamEvent.joinThread])) =
      cs.map Option.some ++ [Option.none] := by
    rw [hcs, queueItems_start, List.append_assoc, queueItems_puts]
    cases (runSegments segGen (split_text text)).2 <;> simp [queueItems]
  have hc : chunksPut
      (StreamEvent.startThread ::
        ((runSegments segGen (split_text text)).1 ++
          (if (runSegments segGen (split_text text)).2 then [StreamEvent.logError]
            else []) ++
          [StreamEvent.putNone, StreamEvent.joinThread])) = cs := by
    rw [hcs, chunksPut_start, List.append_assoc, chunksPut_puts]
    cases (runSegments segGen (split_text text)).2 <;> simp [chunksPut]
  refine ⟨?_, ?_, ?_, player_stops⟩
  · rw [hq, hc]
    exact player_stops cs []
  · rw [hq, hc]
  · cases (runSegments segGen (split_text text)).2 <;> simp [getLast?_trace, getLast?_trace3]

/-- Claim C9: `generate_stream` never propagates an exception raised
during per-segment audio generation: whatever exceptions the segment
generators raise, the call returns normally, the `None` sentinel is
still enqueued and the playback thread still joined as the final two
events, and an error is logged exactly when some processed segment
raised. -/
theorem claim_C9_stream_error_containment {Chunk : Type}
    (segGen : List Char → List Chunk × Option PyError) (text : List Char)
    (h : split_text text ≠ []) :
    (generate_stream segGen text).1 = Except.ok ()
    ∧ (∃ evs', (generate_stream segGen text).2 =
        evs' ++ [StreamEvent.putNone, StreamEvent.joinThread])
    ∧ ((∃ s ∈ split_text text, ((segGen s).2).isSome) ↔
        StreamEvent.logError ∈ (generate_stream segGen text).2) := by
  have hlen : ¬ (split_text text).length = 0 := by
    simpa [List.length_eq_zero] using h
  obtain ⟨cs, hcs⟩ := runSegments_shape segGen (split_text text)
  simp only [generate_stream, if_neg hlen]
  refine ⟨by simp, ?_, ?_⟩
  · exact ⟨StreamEvent.startThread ::
      ((runSegments segGen (split_text text)).1 ++
        (if (runSegments segGen (split_text text)).2 then [StreamEvent.logError]
          else [])), by simp⟩
  · rw [← runSegments_flag segGen (split_text text)]
    have hnolog : StreamEvent.logError ∉
        (cs.map StreamEvent.putChunk : List (StreamEvent Chunk)) := by
      intro hmem
      obtain ⟨c, _, hcontra⟩ := List.mem_map.mp hmem
      cases hcontra
    cases hflag : (runSegments segGen (split_text text)).2 <;> rw [hcs] <;> simp [hnolog]

/-- Claim C10: when `split_text` returns the empty list (for example on
the empty string), `generate_stream` fails with the division by zero in
the average-segment-length computation, before any audio is generated;
the failure is outside the `try` block, so the trace is just the thread
start: no sentinel is enqueued, no chunk is enqueued, and the started
playback thread is never joined. -/
theorem claim_C10_empty_split_crash {Chunk : Type}
    (segGen : List Char → List Chunk × Option PyError) (text : List Char)
    (h : split_text text = []) :
    (generate_stream segGen text).1 = Except.error PyError.zeroDivisionError
    ∧ (generate_stream segGen text).2 = [StreamEvent.startThread]
    ∧ StreamEvent.putNone ∉ (generate_stream segGen text).2
    ∧ StreamEvent.joinThread ∉ (generate_stream segGen text).2
    ∧ (∀ c : Chunk, StreamEvent.putChunk c ∉ (generate_stream segGen text).2) := by
  have hlen : (split_text text).length = 0 := by simp [h]
  simp [generate_stream, hlen]

mutual
theorem load_dump_val : ∀ (v : PyVal), strKeysVal v = true →
    (dumpVal v).map loadVal = Option.some v
  | PyVal.pynone, _ => rfl
  | PyVal.pybool b, _ => rfl
  | PyVal.pyint n, _ => rfl
  | PyVal.pyfloat q, _ => rfl
  | PyVal.pystr s, _ => rfl
  | PyVal.pylist l, h => by
      have ih := load_dump_list l (by simpa [strKeysVal] using h)
      cases hd : dumpList l with
      | none => rw [hd] at ih; cases ih
      | some jl =>
          rw [hd] at ih
          simp only [Option.map] at ih
          injection ih with ih
          simp [dumpVal, hd, loadVal, ih]
  | PyVal.pydict d, h => by
      have ih := load_dump_dict d (by simpa [strKeysVal] using h)
      cases hd : dumpDict d with
      | none => rw [hd] at ih; cases ih
      | some jo =>
          rw [hd] at ih
          simp only [Option.map] at ih
          injection ih with ih
          simp [dumpVal, hd, loadVal, ih]

theorem load_dump_list : ∀ (l : PyList), strKeysList l = true →
    (dumpList l).map loadList = Option.some l
  | PyList.nil, _ => rfl
  | PyList.cons v tl, h => by
      have hsplit : strKeysVal v = true ∧ strKeysList tl = true := by
        simpa [strKeysList, Bool.and_eq_true] using h
      obtain ⟨h1, h2⟩ := hsplit
      have ihv := load_dump_val v h1
      have iht := load_dump_list tl h2
      cases hv : dumpVal v with
      | none => rw [hv] at ihv; cases ihv
      | some j =>
          cases ht : dumpList tl with
          | none => rw [ht] at iht; cases iht
          | some js =>
              rw [hv] at ihv
              rw [ht] at iht
              simp only [Option.map] at ihv iht
              injection ihv with ihv
              injection iht with iht
              simp [dumpList, hv, ht, loadList, ihv, iht]

theorem load_dump_dict : ∀ (d : PyDict), strKeysDict d = true →
    (dumpDict d).map loadObj = Option.some d
  | PyDict.nil, _ => rfl
  | PyDict.cons k v tl, h => by
      obtain ⟨s, rfl⟩ : ∃ s, k = PyVal.pystr s := by
        cases k
        case pystr s => exact ⟨s, rfl⟩
        all_goals (rw [strKeysDict] at h; simp at h)
        all_goals (intro s hs; cases hs)
      rw [strKeysDict] at h
      simp only [Bool.true_and, Bool.and_eq_true] at h
      obtain ⟨h1, h2⟩ := h
      have ihv := load_dump_val v h1
      have iht := load_dump_dict tl h2
      cases hv : dumpVal v with
      | none => rw [hv] at ihv; cases ihv
      | some j =>
          cases ht : dumpDict tl with
          | none => rw [ht] at iht; cases iht
          | some js =>
              rw [hv] at ihv
              rw [ht] at iht
              simp only [Option.map] at ihv iht
              injection ihv with ihv
              injection iht with iht
              simp [dumpDict, dumpKey, hv, ht, loadObj, ihv, iht]
end

/-- Claim C6 (counterexample to the claim as stated): the dict
`{1: "a"}` is JSON-serializable (the int key is coerced to the string
`"1"`), but `load_speaker` after `save_speaker` returns `{"1": "a"}`,
which is not equal to the saved dict. -/
theorem claim_C6_counterexample :
    (dumpVal (PyVal.pydict (PyDict.cons (PyVal.pyint 1) (PyVal.pystr "a")
        PyDict.nil))).isSome = true
    ∧ load_after_save (PyVal.pydict (PyDict.cons (PyVal.pyint 1) (PyVal.pystr "a")
        PyDict.nil)) ≠
      Option.some (PyVal.pydict (PyDict.cons (PyVal.pyint 1) (PyVal.pystr "a")
        PyDict.nil)) := by
  refine ⟨rfl, ?_⟩
  have hval : load_after_save (PyVal.pydict (PyDict.cons (PyVal.pyint 1)
      (PyVal.pystr "a") PyDict.nil)) =
      Option.some (PyVal.pydict (PyDict.cons (PyVal.pystr "1") (PyVal.pystr "a")
        PyDict.nil)) := rfl
  rw [hval]
  intro hcontra
  injection hcontra with h1
  injection h1 with h2
  injection h2 with hk hv htl
  cases hk

/-- Claim C6 (amended): speaker profiles round-trip through JSON for
every JSON-serializable speaker dict whose keys — at every nesting
level — are strings (in particular every dict returned by
`create_speaker`): `load_speaker(path)` after `save_speaker(speaker,
path)` returns a dict equal to the saved one.  (Dicts with non-string
serializable keys have those keys coerced to strings by `json.dump` and
need not round-trip.) -/
theorem claim_C6_roundtrip (sp : PyVal) (h : strKeysVal sp = true) :
    load_after_save sp = Option.some sp :=
  load_dump_val sp h

/-! ## Witnesses: the claim theorems applied at concrete inputs -/

theorem claim_C1_witness :
    isError (InterfaceHF._generate_stream (fun l => l.map Int.ofNat) 0 10
        Option.none 8 false [1, 2]).1 =
      isError (check_generation_max_length Option.none 10)
    ∧ (isError (check_generation_max_length Option.none 10) = true →
        GenEvent.backendGenerate ∉
          (InterfaceHF._generate_stream (fun l => l.map Int.ofNat) 0 10
            Option.none 8 false [1, 2]).2) :=
  claim_C1_max_length_validation.2.2.2.2.2 (fun l => l.map Int.ofNat) 0 10
    Option.none 8 false [1, 2] (by decide)

theorem claim_C2_witness :
    (∀ cs' : Nat, cs' < 4 →
        (InterfaceHF._generate_stream (fun l => l.map Int.ofNat) 9 100
            (Option.some 50) cs' false [1, 9]).1 =
          Except.error PyError.valueErrorChunkSize)
    ∧ (InterfaceHF._generate_stream (fun l => l.map Int.ofNat) 9 100
          (Option.some 50) 4 false [1, 9]).1 =
        Except.ok (chunksAt (fun l => l.map Int.ofNat) [1, 9]
          (cutPoints 9 4 [1, 9] ++
            if ([1, 9] : List Nat) = [] then [] else [[1, 9].length]) 0) :=
  claim_C2_stream_chunk_assembly (fun l => l.map Int.ofNat) 9 100
    (Option.some 50) 4 [1, 9] (by decide) rfl

theorem claim_C4_witness :
    (create_speaker "x" [] 1 [] "en" (Option.some "hi")).1 =
      Except.ok ⟨"hi", specWords [] 1 0 [], "en"⟩
    ∧ (specWords [] 1 0 ([] : List AlignedWord)).length =
        ([] : List AlignedWord).length :=
  claim_C4_create_speaker "x" [] 1 [] "en" (Option.some "hi") (by decide)

theorem claim_C5_witness :
    SpeakerEvent.aligned ∉ (create_speaker "" [] 1 [] "en" Option.none).2
    ∧ SpeakerEvent.encoded ∉ (create_speaker "" [] 1 [] "en" Option.none).2 :=
  (claim_C5_empty_transcript "" [] 1 [] "en" Option.none).2 (by decide)

theorem claim_C6_roundtrip_witness :
    load_after_save (PyVal.pydict (PyDict.cons (PyVal.pystr "text")
        (PyVal.pystr "hello") PyDict.nil)) =
      Option.some (PyVal.pydict (PyDict.cons (PyVal.pystr "text")
        (PyVal.pystr "hello") PyDict.nil)) :=
  claim_C6_roundtrip (PyVal.pydict (PyDict.cons (PyVal.pystr "text")
    (PyVal.pystr "hello") PyDict.nil)) rfl

theorem claim_C7_witness :
    _audio_player (queueItems
        (generate_stream (fun _ => (([5] : List Nat), Option.none)) "ab".toList).2) =
      chunksPut (generate_stream (fun _ => (([5] : List Nat), Option.none)) "ab".toList).2 :=
  (claim_C7_producer_consumer (fun _ => (([5] : List Nat), Option.none)) "ab".toList
    (by decide)).1

theorem claim_C8_witness :
    (['a', 'b'] : List Char) ≠ [] ∧ pyStrip ['a', 'b'] = ['a', 'b']
    ∧ ∀ c ∈ (['a', 'b'] : List Char), delimChar c = false :=
  (claim_C8_split_text "ab".toList).1 ['a', 'b'] (by decide)

theorem claim_C9_witness :
    (generate_stream (fun _ => (([5] : List Nat), Option.some (PyError.other "boom")))
        "ab".toList).1 = Except.ok () :=
  (claim_C9_stream_error_containment
    (fun _ => (([5] : List Nat), Option.some (PyError.other "boom"))) "ab".toList
    (by decide)).1

theorem claim_C10_witness :
    (generate_stream (fun _ => (([5] : List Nat), Option.none)) "".toList).1 =
      Except.error PyError.zeroDivisionError :=
  (claim_C10_empty_split_crash (fun _ => (([5] : List Nat), Option.none)) "".toList
    (by decide)).1

end OuteTTS
